import Mathlib

/-!
Shallow embedding of the incremental live-tree harvesting engine of
`bookmark-scraper-v2.js` (the `TweetScraper` class plus the module-level
`stash` network correlator).

Modelling conventions:
* DOM queries are replaced by their results: a feed-item element is a record
  (`TweetEl`) holding exactly the data the scraper's selectors read from it.
* JavaScript `Set`s are insertion-ordered deduplicated lists; the module-level
  `Map` (`mediaMap`) is an insertion-ordered association list.
* The scraper instance (`this`) is an explicit state record `ScraperState`.
  The module-global `mediaMap` is carried in the same state since exactly one
  scraper session is modelled.
* Effects that leave the engine (scrolls issued, batches handed to the export
  sink, timer/observer/HUD teardown) are recorded in an action trace and in
  the `downloads` list; a caught serialization error increments
  `errorsLogged` (the `catch` block only calls `console.error`).
* The export sink can fail (the `try`/`catch` in `downloadTweetsAsJson`);
  each entry point that can flush takes a boolean `ok` telling whether the
  serialization attempt succeeds.
* Interaction counters (`extractInteractionData` / `parseNumberString`) are a
  pure display-string parsing utility that the specification declares out of
  scope (§1); no verified property mentions them, so the record model omits
  that field.
-/

/-- Membership test on a character list: `pat` occurs as a contiguous
substring; models JavaScript `String.prototype.includes`. -/
def isSubstrL (pat : List Char) : List Char → Bool
  | [] => List.isPrefixOf pat []
  | c :: cs => List.isPrefixOf pat (c :: cs) || isSubstrL pat cs

/-- JavaScript `url.includes(pat)` on strings. -/
def containsSub (pat s : String) : Bool := isSubstrL pat.toList s.toList

/-- JavaScript `s.endsWith(suffix)`. -/
def endsWithStr (s sfx : String) : Bool := List.isSuffixOf sfx.toList s.toList

/-- JavaScript `String.prototype.split` on a single-character separator
(always returns at least one, possibly empty, piece). -/
def splitOnChar (sep : Char) : List Char → List (List Char)
  | [] => [[]]
  | c :: cs =>
    if c = sep then [] :: splitOnChar sep cs
    else
      match splitOnChar sep cs with
      | [] => [[c]]
      | p :: ps => (c :: p) :: ps

/-- Last piece of a split (`parts[parts.length - 1]`); total with default `[]`. -/
def lastPiece : List (List Char) → List Char
  | [] => []
  | [p] => p
  | _ :: ps => lastPiece ps

/-- First piece of a split (`…[0]`); total with default `[]`. -/
def headPiece : List (List Char) → List Char
  | [] => []
  | p :: _ => p

/-- JavaScript `Set.prototype.add`: append the element unless already present
(insertion order preserved). -/
def addToSet (l : List String) (u : String) : List String :=
  if l.contains u then l else l ++ [u]

/-- `new Set(array)` then spread back: insertion-ordered deduplication. -/
def dedupList (l : List String) : List String := l.foldl addToSet []

/-- JavaScript `Set.prototype.has` on the identifier set. -/
def hasId (l : List String) (x : String) : Bool := l.contains x

/-- Greedy `(\d+)\/` at the start of a character list: a nonempty maximal
digit run immediately followed by `/`, as the regex engines in `stash` and
the thumbnail correlation use it. -/
def digitsThenSlash (cs : List Char) : Option String :=
  let digits := cs.takeWhile (·.isDigit)
  if digits.isEmpty then none
  else
    match cs.drop digits.length with
    | '/' :: _ => some (String.mk digits)
    | _ => none

/-- First-match semantics of `url.match(/marker(\d+)\//)`: scan positions left
to right; at each position require the literal `marker`, then a nonempty digit
run, then `/`; return the captured digits. -/
def findMarkerId (marker : List Char) : List Char → Option String
  | [] => none
  | c :: cs =>
    if List.isPrefixOf marker (c :: cs) then
      match digitsThenSlash ((c :: cs).drop marker.length) with
      | some d => some d
      | none => findMarkerId marker cs
    else findMarkerId marker cs

/-- `url.match(/ext_tw_video\/(\d+)\//)` capture group (the `stash` pattern). -/
def videoMediaId (url : String) : Option String :=
  findMarkerId "ext_tw_video/".toList url.toList

/-- `thumbUrl.match(/ext_tw_video_thumb\/(\d+)\//)` capture group
(`extractTweetData`'s thumbnail pattern). -/
def thumbMediaId (url : String) : Option String :=
  findMarkerId "ext_tw_video_thumb/".toList url.toList

/-- `mediaMap.get`: first binding of the key in the association list. -/
def mapGet : List (String × List String) → String → Option (List String)
  | [], _ => none
  | (k', v) :: rest, k => if k' = k then some v else mapGet rest k

/-- `mediaMap.set`: replace the existing binding in place, else append. -/
def mapSet : List (String × List String) → String → List String →
    List (String × List String)
  | [], k, v => [(k, v)]
  | (k', v') :: rest, k, v =>
    if k' = k then (k, v) :: rest else (k', v') :: mapSet rest k v

/-- The module-level `stash(url)`: if the URL matches the
`ext_tw_video/(\d+)/` pattern, append it to the URLs recorded for that media
identifier (creating the entry when absent); otherwise no effect. -/
def stash (mm : List (String × List String)) (url : String) :
    List (String × List String) :=
  match videoMediaId url with
  | none => mm
  | some mid => mapSet mm mid ((mapGet mm mid).getD [] ++ [url])

/-- Data the scraper reads off the (unique, first) `<time>` element of an
article: its `datetime` attribute, its parent anchor's `href`
(`extractTweetId`), and the `href` of its closest enclosing anchor
(`extractTweetData`'s timestamp fallback). `none` models a missing
element/attribute/ancestor. -/
structure TimeInfo where
  datetime : Option String
  parentHref : Option String
  closestAHref : Option String
deriving Repr, DecidableEq

/-- One `article[data-testid="tweet"]` element, reduced to the data the
scraper's selectors extract from it. `imgSrcs` are the `src` attributes of
`a[href*="/photo/"] img[src], [data-testid="tweetPhoto"] img[src]`; `bgUrls`
are the `url(...)` values parsed out of background-image styled
`[data-testid="tweetPhoto"]` nodes; `videoSrcs` are `video > source[src]`
sources; `statusLinkHrefs` are the `href`s of `a[href*="/status/"]` anchors in
document order. -/
structure TweetEl where
  timeData : Option TimeInfo
  authorName : Option String
  tweetText : Option String
  imgSrcs : List String
  bgUrls : List String
  videoSrcs : List String
  statusLinkHrefs : List String
deriving Repr, DecidableEq

/-- One harvested record, as assembled by `extractTweetData` (interaction
counters omitted, see the module comment). -/
structure Tweet where
  tweetId : String
  authorName : Option String
  tweetText : Option String
  timeISO : Option String
  postUrl : String
  images : List String
  videos : List String
deriving Repr, DecidableEq

/-- Result triple of `extractMedia`. -/
structure MediaResult where
  images : List String
  videos : List String
  thumbnails : List String
deriving Repr, DecidableEq

/-- Externally visible actions of the engine, in the order they are issued. -/
inductive ScrapeAction where
  | scrollBy (amount : Nat)
  | flushBatch (batch : List Tweet)
  | cancelTimer
  | unsubscribe
  | removeHud
deriving Repr, DecidableEq

/-- The scraper instance state (`this`), together with the module-global
`mediaMap` and the observable outside world (successful exports, logged
errors, action trace). -/
structure ScraperState where
  scrollIntervalMs : Nat
  scrollStep : Nat
  batchSize : Nat
  stopAtTweetId : Option String
  skipTweetIds : List String
  tweets : List Tweet
  processedTweetIds : List String
  batchIndex : Nat
  stuckCount : Nat
  previousHeight : Nat
  scrollTimerActive : Bool
  observerConnected : Bool
  mediaMap : List (String × List String)
  downloads : List (List Tweet)
  errorsLogged : Nat
  trace : List ScrapeAction
deriving Repr, DecidableEq

/-- `extractTweetId(tweetEl)`: take the `<time>` element's parent anchor href,
split on `/`, take the last segment, strip the query string, and accept it
only when it is all digits (and nonempty). -/
def extractTweetId (el : TweetEl) : Option String :=
  match el.timeData with
  | none => none
  | some t =>
    match t.parentHref with
    | none => none
    | some href =>
      if href = "" then none
      else
        let candidate := headPiece (splitOnChar '?' (lastPiece (splitOnChar '/' href.toList)))
        if candidate.isEmpty then none
        else if candidate.all (·.isDigit) then some (String.mk candidate) else none

/-- One classification step shared by the `imgNodes.forEach` and
`bgNodes.forEach` loops of `extractMedia`: a URL containing
`ext_tw_video_thumb` goes to the thumbnail set, else one containing
`pbs.twimg.com/media` goes to the image set, else it is dropped. -/
def classifyMedia : List String → List String × List String →
    List String × List String
  | [], acc => acc
  | u :: us, (imgs, thumbs) =>
    if u = "" then classifyMedia us (imgs, thumbs)
    else if containsSub "ext_tw_video_thumb" u then
      classifyMedia us (imgs, addToSet thumbs u)
    else if containsSub "pbs.twimg.com/media" u then
      classifyMedia us (addToSet imgs u, thumbs)
    else classifyMedia us (imgs, thumbs)

/-- `extractMedia(root)`: classify the image-node and background-image URLs
into content images vs video thumbnails, and collect direct
`video > source[src]` URLs as a deduplicated set. -/
def extractMedia (el : TweetEl) : MediaResult :=
  let acc1 := classifyMedia el.imgSrcs ([], [])
  let acc2 := classifyMedia el.bgUrls acc1
  { images := acc2.1, videos := dedupList el.videoSrcs, thumbnails := acc2.2 }

/-- First in-item status link whose href ends with `/{tweetId}`. -/
def findEndsWith (tid : String) : List String → Option String
  | [] => none
  | l :: ls => if endsWithStr l ("/" ++ tid) then some l else findEndsWith tid ls

/-- The permalink resolution of `extractTweetData`: prefer a status link
ending exactly in `/{tweetId}`; else the anchor wrapping the timestamp when
its href contains `/status/{tweetId}`; else the first status link; else `""`. -/
def resolvePostUrl (links : List String) (timeLink : Option String)
    (tid : String) : String :=
  match findEndsWith tid links with
  | some l => l
  | none =>
    match timeLink with
    | some t =>
      if containsSub ("/status/" ++ tid) t then t
      else
        match links with
        | [] => ""
        | l :: _ => l
    | none =>
      match links with
      | [] => ""
      | l :: _ => l

/-- One iteration of the thumbnail loop in `extractTweetData`: when the
thumbnail URL embeds a media identifier, add every URL the correlation table
stores for it to the video set. -/
def correlateStep (mm : List (String × List String)) (acc : List String)
    (thumb : String) : List String :=
  match thumbMediaId thumb with
  | none => acc
  | some mid => ((mapGet mm mid).getD []).foldl addToSet acc

/-- The video correlation loop of `extractTweetData`: start from the set of
directly found video URLs, then for each thumbnail whose URL embeds a media
identifier, add every URL stored for that identifier in the correlation
table. -/
def correlateVideos (mm : List (String × List String))
    (directVideos thumbnails : List String) : List String :=
  thumbnails.foldl (correlateStep mm) (dedupList directVideos)

/-- `extractTweetData(el, tweetId)`: abort (return `none`) when the item has
no `<time>` element; otherwise assemble the record, correlating thumbnail
media identifiers against the correlation table for the video set. -/
def extractTweetData (mm : List (String × List String)) (el : TweetEl)
    (tid : String) : Option Tweet :=
  match el.timeData with
  | none => none
  | some t =>
    let m := extractMedia el
    some
      { tweetId := tid
        authorName := el.authorName
        tweetText := el.tweetText
        timeISO := t.datetime
        postUrl := resolvePostUrl el.statusLinkHrefs t.closestAHref tid
        images := m.images
        videos := correlateVideos mm m.videos m.thumbnails }

/-- `downloadTweetsAsJson(tweetsArray)`: attempt serialization/export of the
batch. On success the batch reaches the sink (`downloads`); on failure the
`catch` block logs the error (`console.error`) and the function returns
normally. Either way the caller's state (`tweets`, `batchIndex`) is untouched
here. -/
def downloadTweetsAsJson (s : ScraperState) (batch : List Tweet) (ok : Bool) :
    ScraperState :=
  if ok then
    { s with downloads := s.downloads ++ [batch],
             trace := s.trace ++ [ScrapeAction.flushBatch batch] }
  else
    { s with errorsLogged := s.errorsLogged + 1 }

/-- `cleanup()`: flush the leftover batch when nonempty (without clearing it),
then `clearInterval` the scroll timer, then disconnect the mutation observer,
then remove the HUD. -/
def cleanup (ok : Bool) (s : ScraperState) : ScraperState :=
  let s1 := if s.tweets.isEmpty then s else downloadTweetsAsJson s s.tweets ok
  let s2 := { s1 with scrollTimerActive := false,
                      trace := s1.trace ++ [ScrapeAction.cancelTimer] }
  let s3 := { s2 with observerConnected := false,
                      trace := s2.trace ++ [ScrapeAction.unsubscribe] }
  { s3 with trace := s3.trace ++ [ScrapeAction.removeHud] }

/-- The late-media reconciliation applied to an already-captured record: for
each of images/videos, install the freshly extracted set only when it is
nonempty and the record's set is currently empty. -/
def lateMediaUpdate (m : MediaResult) (t : Tweet) : Tweet :=
  let t1 :=
    if ¬m.images.isEmpty ∧ t.images.isEmpty then { t with images := m.images }
    else t
  if ¬m.videos.isEmpty ∧ t1.videos.isEmpty then { t1 with videos := m.videos }
  else t1

/-- `this.tweets.find(t => t.tweetId === tweetId)` followed by an in-place
mutation of the found record: rewrite the first record with the given id. -/
def updateFirst (tid : String) (f : Tweet → Tweet) : List Tweet → List Tweet
  | [] => []
  | t :: ts => if t.tweetId = tid then f t :: ts else t :: updateFirst tid f ts

/-- `this.tweets.find(t => t.tweetId === tweetId)`. -/
def findRec (tid : String) : List Tweet → Option Tweet
  | [] => none
  | t :: ts => if t.tweetId = tid then some t else findRec tid ts

/-- The `for (const el of tweetEls)` loop body of `updateTweets`. `seed` tells
whether a `seedEls` argument was passed (mutation-triggered call). Reaching
the configured stop identifier runs `cleanup` and returns, dropping the
remaining elements. -/
def updateTweetsGo (seed : Bool) (ok : Bool) :
    ScraperState → List TweetEl → ScraperState
  | s, [] => s
  | s, el :: rest =>
    match extractTweetId el with
    | none => updateTweetsGo seed ok s rest
    | some tid =>
      if hasId s.processedTweetIds tid then
        let s' :=
          if seed then
            { s with tweets :=
                updateFirst tid (lateMediaUpdate (extractMedia el)) s.tweets }
          else s
        updateTweetsGo seed ok s' rest
      else if s.stopAtTweetId = some tid then
        cleanup ok s
      else
        match extractTweetData s.mediaMap el tid with
        | none => updateTweetsGo seed ok s rest
        | some td =>
          updateTweetsGo seed ok
            { s with processedTweetIds := s.processedTweetIds ++ [tid],
                     tweets := s.tweets ++ [td] } rest

/-- `updateTweets(seedEls = null)`: use the seed elements when provided,
otherwise scan the whole document's article elements. -/
def updateTweets (s : ScraperState) (seedEls : Option (List TweetEl))
    (docEls : List TweetEl) (ok : Bool) : ScraperState :=
  match seedEls with
  | some els => updateTweetsGo true ok s els
  | none => updateTweetsGo false ok s docEls

/-- One tick of the `setInterval` callback installed by `initScroll`:
read the current scrollable height, scroll by the configured step, run stuck
detection (three consecutive unchanged heights escalate to one 3× jump and
reset the counter; any change resets it), remember the height, then flush the
batch when it reached the configured size. -/
def scrollTick (s : ScraperState) (currentHeight : Nat) (ok : Bool) :
    ScraperState :=
  let s1 := { s with trace := s.trace ++ [ScrapeAction.scrollBy s.scrollStep] }
  let s2 :=
    if currentHeight = s1.previousHeight then
      if s1.stuckCount + 1 ≥ 3 then
        { s1 with trace := s1.trace ++ [ScrapeAction.scrollBy (s1.scrollStep * 3)],
                  stuckCount := 0 }
      else { s1 with stuckCount := s1.stuckCount + 1 }
    else { s1 with stuckCount := 0 }
  let s3 := { s2 with previousHeight := currentHeight }
  if s3.batchSize ≤ s3.tweets.length then
    let s4 := downloadTweetsAsJson s3 s3.tweets ok
    { s4 with tweets := [], batchIndex := s4.batchIndex + 1 }
  else s3

/-- Constructor options (`options = {}`); `none` models an absent property. -/
structure ScraperOptions where
  scrollIntervalMs : Option Nat := none
  scrollStep : Option Nat := none
  batchSize : Option Nat := none
  stopAtTweetId : Option String := none
  skipTweetIds : Option (List String) := none
deriving Repr, DecidableEq

/-- `options.x || default` on a numeric option (`0` is falsy). -/
def orDefaultNat (o : Option Nat) (d : Nat) : Nat :=
  match o with
  | some n => if n = 0 then d else n
  | none => d

/-- `options.stopAtTweetId || null` (the empty string is falsy). -/
def normStopId (o : Option String) : Option String :=
  match o with
  | some t => if t = "" then none else some t
  | none => none

/-- The `TweetScraper` constructor: record options, seed the processed set
with the skip list, start the observer and the scroll timer, then harvest the
already-visible articles with a full `updateTweets()` scan. -/
def initScraper (opts : ScraperOptions) (docEls : List TweetEl) (ok : Bool) :
    ScraperState :=
  let skips := dedupList (opts.skipTweetIds.getD [])
  let s : ScraperState :=
    { scrollIntervalMs := orDefaultNat opts.scrollIntervalMs 1000
      scrollStep := orDefaultNat opts.scrollStep 800
      batchSize := orDefaultNat opts.batchSize 100
      stopAtTweetId := normStopId opts.stopAtTweetId
      skipTweetIds := skips
      tweets := []
      processedTweetIds := skips
      batchIndex := 0
      stuckCount := 0
      previousHeight := 0
      scrollTimerActive := true
      observerConnected := true
      mediaMap := []
      downloads := []
      errorsLogged := 0
      trace := [] }
  updateTweets s none docEls ok

/-- External triggers of one session: a mutation-observer callback that found
a freshly added article, a scroll-timer tick (with the height the page reports
at that moment), an intercepted outbound request, and an external stop call. -/
inductive ScrapeEvent where
  | mutation (art : TweetEl) (ok : Bool)
  | tick (currentHeight : Nat) (ok : Bool)
  | network (url : String)
  | stop (ok : Bool)
deriving Repr, DecidableEq

/-- Dispatch one event. A cancelled timer fires no ticks and a disconnected
observer delivers no mutations; the fetch/XHR interceptors forward
`video.twimg.com` URLs to `stash`; an external stop call runs `cleanup`. -/
def scraperStep (s : ScraperState) (e : ScrapeEvent) : ScraperState :=
  match e with
  | .mutation art ok =>
    if s.observerConnected then updateTweets s (some [art]) [] ok else s
  | .tick h ok => if s.scrollTimerActive then scrollTick s h ok else s
  | .network url =>
    if containsSub "video.twimg.com" url then
      { s with mediaMap := stash s.mediaMap url }
    else s
  | .stop ok => cleanup ok s

/-- A whole session: the constructor followed by an arbitrary interleaving of
triggers. -/
def runEvents (s : ScraperState) (evs : List ScrapeEvent) : ScraperState :=
  evs.foldl scraperStep s

/-- The fields of a record other than `images`/`videos` (used to state that
reconciliation may only mutate the media fields in place). -/
def coreOf (t : Tweet) : String × Option String × Option String ×
    Option String × String :=
  (t.tweetId, t.authorName, t.tweetText, t.timeISO, t.postUrl)

/-- Scroll amounts issued so far, in order. -/
def scrollsOf (tr : List ScrapeAction) : List Nat :=
  tr.filterMap (fun a => match a with | .scrollBy n => some n | _ => none)

/-- Number of batches handed to the export sink in a trace. -/
def flushCount (tr : List ScrapeAction) : Nat :=
  tr.countP (fun a => match a with | .flushBatch _ => true | _ => false)

/-! Concrete fixtures used by counterexamples and witnesses. -/

/-- A plain text-only article with identifier `111`. -/
def exEl1 : TweetEl :=
  { timeData := some { datetime := some "2024-01-01T00:00:00.000Z"
                       parentHref := some "https://x.com/u/status/111"
                       closestAHref := some "https://x.com/u/status/111" }
    authorName := some "A"
    tweetText := some "hello"
    imgSrcs := []
    bgUrls := []
    videoSrcs := []
    statusLinkHrefs := ["https://x.com/u/status/111"] }

/-- An article with identifier `222` whose only media is a video thumbnail
embedding media identifier `123456` (no direct `<video>` source). -/
def exElThumb : TweetEl :=
  { timeData := some { datetime := some "2024-01-02T00:00:00.000Z"
                       parentHref := some "https://x.com/u/status/222?s=20"
                       closestAHref := some "https://x.com/u/status/222" }
    authorName := some "B"
    tweetText := some "vid"
    imgSrcs := ["https://pbs.twimg.com/ext_tw_video_thumb/123456/pu/img/abc.jpg"]
    bgUrls := []
    videoSrcs := []
    statusLinkHrefs := ["https://x.com/u/status/222"] }

/-- An article with identifier `999`, used as stop target. -/
def exElStop : TweetEl :=
  { timeData := some { datetime := some "2024-01-03T00:00:00.000Z"
                       parentHref := some "https://x.com/u/status/999"
                       closestAHref := some "https://x.com/u/status/999" }
    authorName := some "C"
    tweetText := some "stop"
    imgSrcs := []
    bgUrls := []
    videoSrcs := []
    statusLinkHrefs := ["https://x.com/u/status/999"] }

/-- A network-intercepted video URL for media identifier `123456`. -/
def exVidUrl : String :=
  "https://video.twimg.com/ext_tw_video/123456/pu/vid/720x1280/a.mp4"

/-- The record the scraper extracts from `exEl1`. -/
def exTweet1 : Tweet :=
  { tweetId := "111"
    authorName := some "A"
    tweetText := some "hello"
    timeISO := some "2024-01-01T00:00:00.000Z"
    postUrl := "https://x.com/u/status/111"
    images := []
    videos := [] }

/-- The record the scraper extracts from `exElThumb` when the correlation
table holds nothing for media identifier `123456`. -/
def exTweetThumb : Tweet :=
  { tweetId := "222"
    authorName := some "B"
    tweetText := some "vid"
    timeISO := some "2024-01-02T00:00:00.000Z"
    postUrl := "https://x.com/u/status/222"
    images := []
    videos := [] }

/-- An article with identifier `5`, used with the skip list. -/
def exElSkip5 : TweetEl :=
  { timeData := some { datetime := some "2024-01-04T00:00:00.000Z"
                       parentHref := some "https://x.com/u/status/5"
                       closestAHref := some "https://x.com/u/status/5" }
    authorName := some "D"
    tweetText := some "skipped"
    imgSrcs := []
    bgUrls := []
    videoSrcs := []
    statusLinkHrefs := ["https://x.com/u/status/5"] }

/-- An article carrying a content image, a video thumbnail, an unclassifiable
URL, a background image and a direct video source. -/
def exElMedia : TweetEl :=
  { timeData := some { datetime := some "2024-01-05T00:00:00.000Z"
                       parentHref := some "https://x.com/u/status/333"
                       closestAHref := some "https://x.com/u/status/333" }
    authorName := some "E"
    tweetText := some "media"
    imgSrcs := ["https://pbs.twimg.com/media/AAA.jpg",
                "https://pbs.twimg.com/ext_tw_video_thumb/123456/pu/img/abc.jpg",
                "https://example.com/other.png"]
    bgUrls := ["https://pbs.twimg.com/media/BBB.jpg"]
    videoSrcs := ["blob:https://x.com/v1"]
    statusLinkHrefs := ["https://x.com/u/status/333"] }

/-- The record extracted from `exElThumb` when the correlation table already
holds `exVidUrl` under media identifier `123456`. -/
def exTweetVid : Tweet := { exTweetThumb with videos := [exVidUrl] }

/-! Basic lemmas about the set/trace helpers. -/

lemma mem_addToSet {l : List String} {u x : String} :
    x ∈ addToSet l u ↔ x ∈ l ∨ x = u := by
  unfold addToSet
  split
  · rename_i hcon
    constructor
    · exact fun hx => Or.inl hx
    · intro hx
      rcases hx with hx | hx
      · exact hx
      · subst hx
        exact List.elem_iff.mp hcon
  · simp

lemma mem_foldl_addToSet_acc {l : List String} {acc : List String} {x : String}
    (hx : x ∈ acc) : x ∈ l.foldl addToSet acc := by
  induction l generalizing acc with
  | nil => exact hx
  | cons u us ih => exact ih (mem_addToSet.mpr (Or.inl hx))

lemma mem_foldl_addToSet {l : List String} {acc : List String} {x : String}
    (hx : x ∈ l) : x ∈ l.foldl addToSet acc := by
  induction l generalizing acc with
  | nil => cases hx
  | cons u us ih =>
    rcases List.mem_cons.mp hx with hx | hx
    · subst hx
      show x ∈ us.foldl addToSet (addToSet acc x)
      exact mem_foldl_addToSet_acc (mem_addToSet.mpr (Or.inr rfl))
    · exact ih hx

lemma mem_dedupList {l : List String} {x : String} (hx : x ∈ l) :
    x ∈ dedupList l := mem_foldl_addToSet hx

lemma hasId_iff {l : List String} {x : String} :
    hasId l x = true ↔ x ∈ l := by
  simp [hasId, List.elem_iff]

lemma scrollsOf_append (a b : List ScrapeAction) :
    scrollsOf (a ++ b) = scrollsOf a ++ scrollsOf b := by
  simp [scrollsOf]

lemma flushCount_append (a b : List ScrapeAction) :
    flushCount (a ++ b) = flushCount a + flushCount b := by
  simp [flushCount, List.countP_append]

/-! Behaviour of one scroll tick. -/

lemma scrollTick_previousHeight (s : ScraperState) (h : Nat) (ok : Bool) :
    (scrollTick s h ok).previousHeight = h := by
  unfold scrollTick downloadTweetsAsJson
  dsimp only
  split_ifs <;> rfl

lemma scrollTick_scrollStep (s : ScraperState) (h : Nat) (ok : Bool) :
    (scrollTick s h ok).scrollStep = s.scrollStep := by
  unfold scrollTick downloadTweetsAsJson
  dsimp only
  split_ifs <;> rfl

lemma scrollTick_stuckCount (s : ScraperState) (h : Nat) (ok : Bool) :
    (scrollTick s h ok).stuckCount =
      if h = s.previousHeight then
        if s.stuckCount + 1 ≥ 3 then 0 else s.stuckCount + 1
      else 0 := by
  unfold scrollTick downloadTweetsAsJson
  dsimp only
  split_ifs <;> rfl

lemma scrollTick_scrolls (s : ScraperState) (h : Nat) (ok : Bool) :
    scrollsOf (scrollTick s h ok).trace =
      scrollsOf s.trace ++ [s.scrollStep] ++
        (if h = s.previousHeight ∧ s.stuckCount + 1 ≥ 3 then [s.scrollStep * 3]
         else []) := by
  unfold scrollTick downloadTweetsAsJson
  dsimp only
  split_ifs <;> simp_all [scrollsOf, List.filterMap_append]

/-- C7: on the scroll driver, a run of exactly three consecutive ticks whose
observed scrollable height is unchanged issues exactly one escalated scroll of
three times the configured step and resets the stall counter to zero, while
ticks one and two issue only the ordinary step; and any tick whose observed
height differs from the stored previous observation resets the stall counter
to zero immediately. -/
theorem claim_C7_stuck_detection (s : ScraperState) (h : Nat)
    (ok1 ok2 ok3 : Bool) (hc : s.stuckCount = 0) (hh : s.previousHeight = h) :
    ((scrollTick s h ok1).stuckCount = 1 ∧
      scrollsOf (scrollTick s h ok1).trace =
        scrollsOf s.trace ++ [s.scrollStep]) ∧
    ((scrollTick (scrollTick s h ok1) h ok2).stuckCount = 2 ∧
      scrollsOf (scrollTick (scrollTick s h ok1) h ok2).trace =
        scrollsOf s.trace ++ [s.scrollStep, s.scrollStep]) ∧
    ((scrollTick (scrollTick (scrollTick s h ok1) h ok2) h ok3).stuckCount = 0 ∧
      scrollsOf (scrollTick (scrollTick (scrollTick s h ok1) h ok2) h ok3).trace =
        scrollsOf s.trace ++
          [s.scrollStep, s.scrollStep, s.scrollStep, s.scrollStep * 3]) ∧
    (∀ s' : ScraperState, ∀ h' : Nat, ∀ ok' : Bool,
      h' ≠ s'.previousHeight → (scrollTick s' h' ok').stuckCount = 0) := by
  refine ⟨⟨?_, ?_⟩, ⟨?_, ?_⟩, ⟨?_, ?_⟩, ?_⟩
  · simp [scrollTick_stuckCount, hc, hh]
  · simp [scrollTick_scrolls, hc, hh]
  · simp [scrollTick_stuckCount, scrollTick_previousHeight, hc, hh]
  · simp [scrollTick_scrolls, scrollTick_stuckCount, scrollTick_previousHeight,
      scrollTick_scrollStep, hc, hh]
  · simp [scrollTick_stuckCount, scrollTick_previousHeight, hc, hh]
  · simp [scrollTick_scrolls, scrollTick_stuckCount, scrollTick_previousHeight,
      scrollTick_scrollStep, hc, hh]
  · intro s' h' ok' hne
    simp [scrollTick_stuckCount, hne]

/-- C7 witness: the three-tick stuck run and the reset behaviour at a
concrete state. -/
theorem claim_C7_stuck_detection_witness :
    ((initScraper { } [] true).stuckCount = 0 ∧
      (initScraper { } [] true).previousHeight = 0) ∧
    (scrollTick (scrollTick (scrollTick (initScraper { } [] true) 0 true)
        0 true) 0 true).stuckCount = 0 ∧
    (scrollTick (initScraper { } [] true) 42 true).stuckCount = 0 := by
  refine ⟨⟨by decide, by decide⟩, ?_, ?_⟩
  · exact (claim_C7_stuck_detection (initScraper { } [] true) 0 true true true
      (by decide) (by decide)).2.2.1.1
  · exact (claim_C7_stuck_detection (initScraper { } [] true) 0 true true true
      (by decide) (by decide)).2.2.2 (initScraper { } [] true) 42 true
      (by decide)

/-- C1 counterexample: with batch size 1 and one captured record, a scroll
tick whose export attempt fails (the serialization error is caught and only
logged, `errorsLogged` becomes 1 and nothing reaches the sink) still clears
the pending batch: afterwards it no longer contains the record it contained
before, refuting the claim that a failed flush leaves the pending batch
intact. -/
theorem claim_C1_counterexample :
    (initScraper { batchSize := some 1 } [exEl1] true).tweets = [exTweet1] ∧
    (scraperStep (initScraper { batchSize := some 1 } [exEl1] true)
        (ScrapeEvent.tick 5 false)).errorsLogged = 1 ∧
    (scraperStep (initScraper { batchSize := some 1 } [exEl1] true)
        (ScrapeEvent.tick 5 false)).downloads = [] ∧
    (scraperStep (initScraper { batchSize := some 1 } [exEl1] true)
        (ScrapeEvent.tick 5 false)).tweets = [] := by
  refine ⟨by decide, by decide, by decide, by decide⟩

/-- C1 amended: when a size-triggered flush's export fails, the error is
caught and logged inside the export routine (nothing reaches the sink, no
error propagates) and the pending batch is cleared anyway with `batchIndex`
incremented, so the records of a failed size-triggered flush are dropped;
the termination flush in `cleanup` leaves the pending batch in place
regardless of the export outcome. -/
theorem claim_C1_amended (s : ScraperState) (h : Nat) (ok : Bool)
    (hlen : s.batchSize ≤ s.tweets.length) :
    ((scrollTick s h false).tweets = [] ∧
     (scrollTick s h false).batchIndex = s.batchIndex + 1 ∧
     (scrollTick s h false).downloads = s.downloads ∧
     (scrollTick s h false).errorsLogged = s.errorsLogged + 1) ∧
    (cleanup ok s).tweets = s.tweets := by
  constructor
  · unfold scrollTick downloadTweetsAsJson
    dsimp only
    split_ifs <;> simp_all
  · unfold cleanup downloadTweetsAsJson
    dsimp only
    split_ifs <;> rfl

/-- C1 amended witness at a concrete one-record state. -/
theorem claim_C1_amended_witness :
    (initScraper { batchSize := some 1 } [exElThumb] true).batchSize ≤
      (initScraper { batchSize := some 1 } [exElThumb] true).tweets.length ∧
    (scrollTick (initScraper { batchSize := some 1 } [exElThumb] true)
        7 false).tweets = [] :=
  ⟨by decide,
    (claim_C1_amended (initScraper { batchSize := some 1 } [exElThumb] true)
      7 true (by decide)).1.1⟩

/-- C3 counterexample: at a concrete state holding one captured record,
`cleanup` performs the final flush FIRST and only then cancels the timer and
unsubscribes the listener (refuting the claimed (a) cancel, (b) unsubscribe,
(c) flush order), and a second stop call flushes the still-uncleared batch a
second time (refuting idempotence). -/
theorem claim_C3_counterexample :
    (cleanup true (initScraper { } [exElThumb] true)).trace =
      [ScrapeAction.flushBatch [exTweetThumb], ScrapeAction.cancelTimer,
       ScrapeAction.unsubscribe, ScrapeAction.removeHud] ∧
    flushCount (cleanup true (cleanup true
      (initScraper { } [exElThumb] true))).trace = 2 := by
  refine ⟨by decide, by decide⟩

/-- C3 amended: `cleanup` is a total function (it cannot raise) that, on a
state with a nonempty pending batch and a succeeding export, performs the
final flush first, then cancels the scroll timer, then unsubscribes the
structural-change listener, then removes the HUD, in that order; it never
clears the pending batch, so a second stop call flushes the same batch to
the sink a second time. -/
theorem claim_C3_amended (s : ScraperState) (htw : s.tweets ≠ []) :
    (cleanup true s).trace =
      s.trace ++ [ScrapeAction.flushBatch s.tweets, ScrapeAction.cancelTimer,
                  ScrapeAction.unsubscribe, ScrapeAction.removeHud] ∧
    (cleanup true s).tweets = s.tweets ∧
    (cleanup true s).scrollTimerActive = false ∧
    (cleanup true s).observerConnected = false ∧
    (cleanup true (cleanup true s)).downloads =
      s.downloads ++ [s.tweets, s.tweets] := by
  have hne : s.tweets.isEmpty = false := by
    cases hv : s.tweets with
    | nil => exact absurd hv htw
    | cons a l => rfl
  unfold cleanup downloadTweetsAsJson
  dsimp only
  simp [hne]

/-- C3 amended witness at a concrete one-record state. -/
theorem claim_C3_amended_witness :
    (initScraper { } [exEl1] true).tweets ≠ [] ∧
    (cleanup true (cleanup true (initScraper { } [exEl1] true))).downloads =
      (initScraper { } [exEl1] true).downloads ++
        [(initScraper { } [exEl1] true).tweets,
         (initScraper { } [exEl1] true).tweets] :=
  ⟨by decide, (claim_C3_amended (initScraper { } [exEl1] true)
    (by decide)).2.2.2.2⟩

/-! Permalink resolution (C8). -/

lemma findEndsWith_some {tid l : String} {links : List String}
    (hfe : findEndsWith tid links = some l) :
    l ∈ links ∧ endsWithStr l ("/" ++ tid) = true := by
  induction links with
  | nil => cases hfe
  | cons x xs ih =>
    by_cases hx : endsWithStr x ("/" ++ tid) = true
    · have hx2 : findEndsWith tid (x :: xs) = some x := by
        simp [findEndsWith, hx]
      rw [hx2] at hfe
      have hxl : x = l := by injection hfe
      subst hxl
      exact ⟨List.mem_cons_self _ _, hx⟩
    · have hx2 : findEndsWith tid (x :: xs) = findEndsWith tid xs := by
        simp [findEndsWith, hx]
      rw [hx2] at hfe
      rcases ih hfe with ⟨hm, he⟩
      exact ⟨List.mem_cons_of_mem x hm, he⟩

lemma findEndsWith_none {tid : String} {links : List String}
    (hfe : findEndsWith tid links = none) :
    ∀ l ∈ links, endsWithStr l ("/" ++ tid) = false := by
  induction links with
  | nil => intro l hl; cases hl
  | cons x xs ih =>
    intro l hl
    by_cases hx : endsWithStr x ("/" ++ tid) = true
    · have hx2 : findEndsWith tid (x :: xs) = some x := by
        simp [findEndsWith, hx]
      rw [hx2] at hfe
      cases hfe
    · have hx2 : findEndsWith tid (x :: xs) = findEndsWith tid xs := by
        simp [findEndsWith, hx]
      rw [hx2] at hfe
      rcases List.mem_cons.mp hl with h | h
      · subst h
        simpa using hx
      · exact ih hfe l h

/-- C8: permalink resolution follows the three-stage fallback chain and never
aborts a record: the chosen permalink is a status link ending exactly in
`/{id}` when one exists; otherwise the timestamp anchor when its URL contains
`/status/{id}`; otherwise the first status link (or `""` when there are no
status links at all); and extraction never fails because of the permalink —
any item with a timestamp element yields a record. -/
theorem claim_C8_permalink (links : List String) (timeLink : Option String)
    (tid : String) :
    ((∃ l, l ∈ links ∧ endsWithStr l ("/" ++ tid) = true) →
      resolvePostUrl links timeLink tid ∈ links ∧
        endsWithStr (resolvePostUrl links timeLink tid) ("/" ++ tid) = true) ∧
    ((∀ l ∈ links, endsWithStr l ("/" ++ tid) = false) →
      ∀ t : String, timeLink = some t →
        containsSub ("/status/" ++ tid) t = true →
          resolvePostUrl links timeLink tid = t) ∧
    ((∀ l ∈ links, endsWithStr l ("/" ++ tid) = false) →
      (∀ t : String, timeLink = some t →
        containsSub ("/status/" ++ tid) t = false) →
      resolvePostUrl links timeLink tid = links.headD "") ∧
    (∀ mm : List (String × List String), ∀ el : TweetEl,
      el.timeData.isSome = true → (extractTweetData mm el tid).isSome = true) := by
  refine ⟨?_, ?_, ?_, ?_⟩
  · rintro ⟨l, hm, he⟩
    cases hfe : findEndsWith tid links with
    | none => exact absurd he (by simp [findEndsWith_none hfe l hm])
    | some r =>
      have hr := findEndsWith_some hfe
      unfold resolvePostUrl
      rw [hfe]
      exact hr
  · intro hall t ht hc
    cases hfe : findEndsWith tid links with
    | none =>
      unfold resolvePostUrl
      rw [hfe, ht]
      simp [hc]
    | some r =>
      rcases findEndsWith_some hfe with ⟨hm, he⟩
      exact absurd he (by simp [hall r hm])
  · intro hall hno
    cases hfe : findEndsWith tid links with
    | none =>
      unfold resolvePostUrl
      rw [hfe]
      cases timeLink with
      | none => cases links <;> rfl
      | some t =>
        have := hno t rfl
        simp only [this]
        cases links <;> simp [List.headD]
    | some r =>
      rcases findEndsWith_some hfe with ⟨hm, he⟩
      exact absurd he (by simp [hall r hm])
  · intro mm el h
    unfold extractTweetData
    cases hv : el.timeData with
    | none => rw [hv] at h; cases h
    | some t => rfl

/-- C8 witness: a links list with an exact trailing match, at concrete
inputs. -/
theorem claim_C8_permalink_witness :
    (∃ l, l ∈ ["https://x.com/u/status/9123", "https://x.com/u/status/123"] ∧
        endsWithStr l ("/" ++ "123") = true) ∧
    resolvePostUrl ["https://x.com/u/status/9123", "https://x.com/u/status/123"]
        (some "https://x.com/u/status/123") "123" ∈
      ["https://x.com/u/status/9123", "https://x.com/u/status/123"] ∧
    endsWithStr (resolvePostUrl
        ["https://x.com/u/status/9123", "https://x.com/u/status/123"]
        (some "https://x.com/u/status/123") "123") ("/" ++ "123") = true :=
  ⟨⟨"https://x.com/u/status/123", by decide, by decide⟩,
    (claim_C8_permalink ["https://x.com/u/status/9123",
        "https://x.com/u/status/123"] (some "https://x.com/u/status/123")
        "123").1
      ⟨"https://x.com/u/status/123", by decide, by decide⟩⟩

/-! Media classification (C10). -/

lemma classifyMedia_spec (us : List String) (imgs thumbs : List String)
    (himgs : ∀ u ∈ imgs, containsSub "pbs.twimg.com/media" u = true)
    (hthumbs : ∀ u ∈ thumbs, containsSub "ext_tw_video_thumb" u = true) :
    (∀ u ∈ (classifyMedia us (imgs, thumbs)).1,
      containsSub "pbs.twimg.com/media" u = true) ∧
    (∀ u ∈ (classifyMedia us (imgs, thumbs)).2,
      containsSub "ext_tw_video_thumb" u = true) := by
  induction us generalizing imgs thumbs with
  | nil => exact ⟨himgs, hthumbs⟩
  | cons u us ih =>
    by_cases h0 : u = ""
    · simpa [classifyMedia, h0] using ih imgs thumbs himgs hthumbs
    · by_cases h1 : containsSub "ext_tw_video_thumb" u = true
      · have hthumbs2 : ∀ v ∈ addToSet thumbs u,
            containsSub "ext_tw_video_thumb" v = true := by
          intro v hv
          rcases mem_addToSet.mp hv with hv | hv
          · exact hthumbs v hv
          · subst hv; exact h1
        simpa [classifyMedia, h0, h1] using
          ih imgs (addToSet thumbs u) himgs hthumbs2
      · by_cases h2 : containsSub "pbs.twimg.com/media" u = true
        · have himgs2 : ∀ v ∈ addToSet imgs u,
              containsSub "pbs.twimg.com/media" v = true := by
            intro v hv
            rcases mem_addToSet.mp hv with hv | hv
            · exact himgs v hv
            · subst hv; exact h2
          simpa [classifyMedia, h0, h1, h2] using
            ih (addToSet imgs u) thumbs himgs2 hthumbs
        · simpa [classifyMedia, h0, h1, h2] using
            ih imgs thumbs himgs hthumbs

/-- C10: every URL in the returned images set contains
`pbs.twimg.com/media`, every URL in the returned thumbnails set contains
`ext_tw_video_thumb`, and a URL containing neither substring ends up in
neither set — it is discarded entirely. -/
theorem claim_C10_media_classes (el : TweetEl) (url : String) :
    (url ∈ (extractMedia el).images →
      containsSub "pbs.twimg.com/media" url = true) ∧
    (url ∈ (extractMedia el).thumbnails →
      containsSub "ext_tw_video_thumb" url = true) ∧
    (containsSub "pbs.twimg.com/media" url = false →
      containsSub "ext_tw_video_thumb" url = false →
        url ∉ (extractMedia el).images ∧ url ∉ (extractMedia el).thumbnails) := by
  have h1 := classifyMedia_spec el.imgSrcs [] []
    (by intro u hu; cases hu) (by intro u hu; cases hu)
  have h2 := classifyMedia_spec el.bgUrls
    (classifyMedia el.imgSrcs ([], [])).1 (classifyMedia el.imgSrcs ([], [])).2
    h1.1 h1.2
  have himg : ∀ u ∈ (extractMedia el).images,
      containsSub "pbs.twimg.com/media" u = true := by
    intro u hu
    exact h2.1 u (by simpa [extractMedia] using hu)
  have hth : ∀ u ∈ (extractMedia el).thumbnails,
      containsSub "ext_tw_video_thumb" u = true := by
    intro u hu
    exact h2.2 u (by simpa [extractMedia] using hu)
  refine ⟨fun hu => himg url hu, fun hu => hth url hu, fun hm ht => ⟨?_, ?_⟩⟩
  · intro hu
    rw [himg url hu] at hm
    cases hm
  · intro hu
    rw [hth url hu] at ht
    cases ht

/-- C10 witness: concrete media extraction with one URL of each class; the
unclassifiable URL is dropped. -/
theorem claim_C10_media_classes_witness :
    "https://pbs.twimg.com/media/AAA.jpg" ∈ (extractMedia exElMedia).images ∧
    containsSub "pbs.twimg.com/media" "https://pbs.twimg.com/media/AAA.jpg" = true ∧
    containsSub "pbs.twimg.com/media" "https://example.com/other.png" = false ∧
    containsSub "ext_tw_video_thumb" "https://example.com/other.png" = false ∧
    "https://example.com/other.png" ∉ (extractMedia exElMedia).images ∧
    "https://example.com/other.png" ∉ (extractMedia exElMedia).thumbnails := by
  refine ⟨by decide, ?_, ?_, ?_, ?_, ?_⟩
  · exact (claim_C10_media_classes exElMedia
      "https://pbs.twimg.com/media/AAA.jpg").1 (by decide)
  · decide
  · decide
  · exact ((claim_C10_media_classes exElMedia
      "https://example.com/other.png").2.2 (by decide) (by decide)).1
  · exact ((claim_C10_media_classes exElMedia
      "https://example.com/other.png").2.2 (by decide) (by decide)).2

/-! Order-independent media correlation (C6). -/

lemma mapGet_mapSet_self (mm : List (String × List String)) (k : String)
    (v : List String) : mapGet (mapSet mm k v) k = some v := by
  induction mm with
  | nil => simp [mapSet, mapGet]
  | cons p rest ih =>
    obtain ⟨k', v'⟩ := p
    by_cases hk : k' = k
    · simp [mapSet, mapGet, hk]
    · simp [mapSet, mapGet, hk, ih]

lemma correlateStep_mono {mm : List (String × List String)}
    {acc : List String} {t x : String} (hx : x ∈ acc) :
    x ∈ correlateStep mm acc t := by
  unfold correlateStep
  cases thumbMediaId t with
  | none => exact hx
  | some mid => exact mem_foldl_addToSet_acc hx

lemma foldl_correlateStep_mono {mm : List (String × List String)}
    {l : List String} {acc : List String} {x : String} (hx : x ∈ acc) :
    x ∈ l.foldl (correlateStep mm) acc := by
  induction l generalizing acc with
  | nil => exact hx
  | cons t ts ih => exact ih (correlateStep_mono hx)

lemma mem_correlate_fold {mm : List (String × List String)}
    {thumbs : List String} {thumb mid url : String} (acc : List String)
    (hth : thumb ∈ thumbs) (hmid : thumbMediaId thumb = some mid)
    (hurl : url ∈ (mapGet mm mid).getD []) :
    url ∈ thumbs.foldl (correlateStep mm) acc := by
  induction thumbs generalizing acc with
  | nil => cases hth
  | cons t ts ih =>
    rcases List.mem_cons.mp hth with h | h
    · subst h
      show url ∈ ts.foldl (correlateStep mm) (correlateStep mm acc thumb)
      refine foldl_correlateStep_mono ?_
      unfold correlateStep
      rw [hmid]
      exact mem_foldl_addToSet hurl
    · exact ih (correlateStep mm acc t) h

lemma mem_correlateVideos {mm : List (String × List String)}
    {direct thumbs : List String} {thumb mid url : String}
    (hth : thumb ∈ thumbs) (hmid : thumbMediaId thumb = some mid)
    (hurl : url ∈ (mapGet mm mid).getD []) :
    url ∈ correlateVideos mm direct thumbs :=
  mem_correlate_fold (dedupList direct) hth hmid hurl

/-- C6: media correlation is order-independent in the capture-before-
extraction direction. Storing a matching network URL with `stash` records it
under its embedded media identifier, and whenever the correlation table holds
a URL under identifier `mid` at extraction time and the item's extraction
finds a thumbnail embedding `mid`, the resulting record's videos set contains
that stored URL. -/
theorem claim_C6_capture_before_extraction (mm : List (String × List String))
    (el : TweetEl) (tid mid url thumb : String)
    (hmatch : videoMediaId url = some mid)
    (hth : thumb ∈ (extractMedia el).thumbnails)
    (hmid : thumbMediaId thumb = some mid)
    (htime : el.timeData.isSome = true) :
    url ∈ (mapGet (stash mm url) mid).getD [] ∧
    (∀ mm2 : List (String × List String), url ∈ (mapGet mm2 mid).getD [] →
      ∃ td, extractTweetData mm2 el tid = some td ∧ url ∈ td.videos) := by
  constructor
  · unfold stash
    rw [hmatch, mapGet_mapSet_self]
    simp
  · intro mm2 hurl
    cases hv : el.timeData with
    | none => rw [hv] at htime; cases htime
    | some t =>
      refine ⟨_, by unfold extractTweetData; rw [hv], ?_⟩
      exact mem_correlateVideos hth hmid hurl

/-- C6 witness: `exVidUrl` stashed before `exElThumb` is extracted ends up in
the extracted record's videos set. -/
theorem claim_C6_capture_before_extraction_witness :
    (videoMediaId exVidUrl = some "123456" ∧
      "https://pbs.twimg.com/ext_tw_video_thumb/123456/pu/img/abc.jpg" ∈
        (extractMedia exElThumb).thumbnails ∧
      thumbMediaId
        "https://pbs.twimg.com/ext_tw_video_thumb/123456/pu/img/abc.jpg" =
          some "123456" ∧
      exElThumb.timeData.isSome = true) ∧
    exVidUrl ∈ (mapGet (stash [] exVidUrl) "123456").getD [] :=
  ⟨⟨by decide, by decide, by decide, by decide⟩,
    (claim_C6_capture_before_extraction [] exElThumb "222" "123456" exVidUrl
      "https://pbs.twimg.com/ext_tw_video_thumb/123456/pu/img/abc.jpg"
      (by decide) (by decide) (by decide) (by decide)).1⟩

/-! Frame and structure lemmas for the reconciliation loop. -/

lemma cleanup_tweets (ok : Bool) (s : ScraperState) :
    (cleanup ok s).tweets = s.tweets := by
  unfold cleanup downloadTweetsAsJson
  dsimp only
  split_ifs <;> rfl

lemma cleanup_processed (ok : Bool) (s : ScraperState) :
    (cleanup ok s).processedTweetIds = s.processedTweetIds := by
  unfold cleanup downloadTweetsAsJson
  dsimp only
  split_ifs <;> rfl

lemma cleanup_stopAtTweetId (ok : Bool) (s : ScraperState) :
    (cleanup ok s).stopAtTweetId = s.stopAtTweetId := by
  unfold cleanup downloadTweetsAsJson
  dsimp only
  split_ifs <;> rfl

lemma cleanup_mediaMap (ok : Bool) (s : ScraperState) :
    (cleanup ok s).mediaMap = s.mediaMap := by
  unfold cleanup downloadTweetsAsJson
  dsimp only
  split_ifs <;> rfl

lemma lateMediaUpdate_tweetId (m : MediaResult) (t : Tweet) :
    (lateMediaUpdate m t).tweetId = t.tweetId := by
  unfold lateMediaUpdate
  dsimp only
  split_ifs <;> rfl

lemma lateMediaUpdate_core (m : MediaResult) (t : Tweet) :
    coreOf (lateMediaUpdate m t) = coreOf t := by
  unfold lateMediaUpdate coreOf
  dsimp only
  split_ifs <;> rfl

lemma lateMediaUpdate_keeps_images (m : MediaResult) (t : Tweet)
    (h : t.images ≠ []) : (lateMediaUpdate m t).images = t.images := by
  unfold lateMediaUpdate
  dsimp only
  have : ¬t.images.isEmpty = true := by
    cases hv : t.images with
    | nil => exact absurd hv h
    | cons a l => simp
  split_ifs <;> simp_all

lemma lateMediaUpdate_keeps_videos (m : MediaResult) (t : Tweet)
    (h : t.videos ≠ []) : (lateMediaUpdate m t).videos = t.videos := by
  unfold lateMediaUpdate
  dsimp only
  have hv : ¬t.videos.isEmpty = true := by
    cases hv : t.videos with
    | nil => exact absurd hv h
    | cons a l => simp
  split_ifs <;> simp_all

lemma lateMediaUpdate_videos_of_empty (m : MediaResult) (t : Tweet)
    (h : t.videos = []) : (lateMediaUpdate m t).videos = m.videos := by
  unfold lateMediaUpdate
  dsimp only
  split_ifs <;> simp_all [List.isEmpty_iff]

lemma updateFirst_map_core {tid : String} {f : Tweet → Tweet}
    (hf : ∀ t, coreOf (f t) = coreOf t) (l : List Tweet) :
    (updateFirst tid f l).map coreOf = l.map coreOf := by
  induction l with
  | nil => rfl
  | cons t ts ih =>
    unfold updateFirst
    split_ifs <;> simp [hf, ih]

lemma updateFirst_map_id {tid : String} {f : Tweet → Tweet}
    (hf : ∀ t, (f t).tweetId = t.tweetId) (l : List Tweet) :
    (updateFirst tid f l).map Tweet.tweetId = l.map Tweet.tweetId := by
  induction l with
  | nil => rfl
  | cons t ts ih =>
    unfold updateFirst
    split_ifs <;> simp [hf, ih]

lemma updateFirst_first_match {tid : String} {f : Tweet → Tweet}
    {pre post : List Tweet} {a : Tweet}
    (hpre : ∀ t ∈ pre, t.tweetId ≠ tid) (ha : a.tweetId = tid) :
    updateFirst tid f (pre ++ a :: post) = pre ++ f a :: post := by
  induction pre with
  | nil => simp [updateFirst, ha]
  | cons p ps ih =>
    have hp : p.tweetId ≠ tid := hpre p (List.mem_cons_self _ _)
    have ih2 := ih (fun t ht => hpre t (List.mem_cons_of_mem _ ht))
    show (if p.tweetId = tid then f p :: (ps ++ a :: post)
          else p :: updateFirst tid f (ps ++ a :: post)) =
        (p :: ps) ++ f a :: post
    rw [if_neg hp, ih2]
    rfl

lemma updateFirst_decomp_ne {tid : String} {f : Tweet → Tweet}
    {pre post : List Tweet} {a : Tweet}
    (hf : ∀ t, (f t).tweetId = t.tweetId) (ha : a.tweetId ≠ tid) :
    ∃ pre2 post2, updateFirst tid f (pre ++ a :: post) = pre2 ++ a :: post2 ∧
      pre2.map Tweet.tweetId = pre.map Tweet.tweetId := by
  induction pre with
  | nil =>
    refine ⟨[], updateFirst tid f post, ?_, rfl⟩
    simp [updateFirst, ha]
  | cons p ps ih =>
    by_cases hp : p.tweetId = tid
    · refine ⟨f p :: ps, post, ?_, by simp [hf]⟩
      show (if p.tweetId = tid then f p :: (ps ++ a :: post)
            else p :: updateFirst tid f (ps ++ a :: post)) =
          (f p :: ps) ++ a :: post
      rw [if_pos hp]
      rfl
    · rcases ih with ⟨pre2, post2, heq, hmap⟩
      refine ⟨p :: pre2, post2, ?_, by simp [hmap]⟩
      show (if p.tweetId = tid then f p :: (ps ++ a :: post)
            else p :: updateFirst tid f (ps ++ a :: post)) =
          (p :: pre2) ++ a :: post2
      rw [if_neg hp, heq]
      rfl

lemma go_processed_mono (seed ok : Bool) (els : List TweetEl) :
    ∀ s : ScraperState, ∀ x : String, x ∈ s.processedTweetIds →
      x ∈ (updateTweetsGo seed ok s els).processedTweetIds := by
  induction els with
  | nil => intro s x hx; exact hx
  | cons el rest ih =>
    intro s x hx
    unfold updateTweetsGo
    cases hid : extractTweetId el with
    | none => exact ih s x hx
    | some tid =>
      dsimp only
      by_cases hproc : hasId s.processedTweetIds tid
      · rw [if_pos hproc]
        split <;> exact ih _ x hx
      · rw [if_neg hproc]
        by_cases hstop : s.stopAtTweetId = some tid
        · rw [if_pos hstop, cleanup_processed]
          exact hx
        · rw [if_neg hstop]
          cases htd : extractTweetData s.mediaMap el tid with
          | none => exact ih s x hx
          | some td =>
            dsimp only
            exact ih _ x (List.mem_append_left _ hx)

lemma go_stopAtTweetId (seed ok : Bool) (els : List TweetEl) :
    ∀ s : ScraperState,
      (updateTweetsGo seed ok s els).stopAtTweetId = s.stopAtTweetId := by
  induction els with
  | nil => intro s; rfl
  | cons el rest ih =>
    intro s
    unfold updateTweetsGo
    cases hid : extractTweetId el with
    | none => exact ih s
    | some tid =>
      dsimp only
      by_cases hproc : hasId s.processedTweetIds tid
      · rw [if_pos hproc]
        split <;> exact ih _
      · rw [if_neg hproc]
        by_cases hstop : s.stopAtTweetId = some tid
        · rw [if_pos hstop, cleanup_stopAtTweetId]
        · rw [if_neg hstop]
          cases htd : extractTweetData s.mediaMap el tid with
          | none => exact ih s
          | some td => exact ih _

lemma go_processed_from (seed ok : Bool) (els : List TweetEl) :
    ∀ s : ScraperState, ∀ x : String,
      x ∈ (updateTweetsGo seed ok s els).processedTweetIds →
      x ∈ s.processedTweetIds ∨ ∃ e ∈ els, extractTweetId e = some x := by
  induction els with
  | nil => intro s x hx; exact Or.inl hx
  | cons el rest ih =>
    intro s x hx
    unfold updateTweetsGo at hx
    revert hx
    cases hid : extractTweetId el with
    | none =>
      intro hx
      rcases ih s x hx with h | ⟨e, he, hee⟩
      · exact Or.inl h
      · exact Or.inr ⟨e, List.mem_cons_of_mem _ he, hee⟩
    | some tid =>
      dsimp only
      by_cases hproc : hasId s.processedTweetIds tid
      · rw [if_pos hproc]
        intro hx
        split at hx <;>
          (rcases ih _ x hx with h | ⟨e, he, hee⟩
           · exact Or.inl h
           · exact Or.inr ⟨e, List.mem_cons_of_mem _ he, hee⟩)
      · rw [if_neg hproc]
        by_cases hstop : s.stopAtTweetId = some tid
        · rw [if_pos hstop]
          intro hx
          rw [cleanup_processed] at hx
          exact Or.inl hx
        · rw [if_neg hstop]
          cases htd : extractTweetData s.mediaMap el tid with
          | none =>
            intro hx
            rcases ih s x hx with h | ⟨e, he, hee⟩
            · exact Or.inl h
            · exact Or.inr ⟨e, List.mem_cons_of_mem _ he, hee⟩
          | some td =>
            dsimp only
            intro hx
            rcases ih _ x hx with h | ⟨e, he, hee⟩
            · rcases List.mem_append.mp h with h | h
              · exact Or.inl h
              · have : x = tid := by simpa using h
                subst this
                exact Or.inr ⟨el, List.mem_cons_self _ _, hid⟩
            · exact Or.inr ⟨e, List.mem_cons_of_mem _ he, hee⟩

lemma updateTweetsGo_cons (seed ok : Bool) (s : ScraperState) (el : TweetEl)
    (rest : List TweetEl) :
    updateTweetsGo seed ok s (el :: rest) =
      match extractTweetId el with
      | none => updateTweetsGo seed ok s rest
      | some tid =>
        if hasId s.processedTweetIds tid then
          updateTweetsGo seed ok
            (if seed then
              { s with tweets :=
                  updateFirst tid (lateMediaUpdate (extractMedia el)) s.tweets }
             else s) rest
        else if s.stopAtTweetId = some tid then cleanup ok s
        else
          match extractTweetData s.mediaMap el tid with
          | none => updateTweetsGo seed ok s rest
          | some td =>
            updateTweetsGo seed ok
              { s with processedTweetIds := s.processedTweetIds ++ [tid],
                       tweets := s.tweets ++ [td] } rest := rfl

lemma go_append (seed ok : Bool) (els : List TweetEl) :
    ∀ s : ScraperState, ∀ more : List TweetEl,
      (∀ e ∈ els, ∀ t : String,
        extractTweetId e = some t → s.stopAtTweetId ≠ some t) →
      updateTweetsGo seed ok s (els ++ more) =
        updateTweetsGo seed ok (updateTweetsGo seed ok s els) more := by
  induction els with
  | nil => intro s more _; rfl
  | cons el rest ih =>
    intro s more hsafe
    rw [List.cons_append, updateTweetsGo_cons seed ok s el (rest ++ more),
      updateTweetsGo_cons seed ok s el rest]
    cases hid : extractTweetId el with
    | none =>
      exact ih s more (fun e he => hsafe e (List.mem_cons_of_mem _ he))
    | some tid =>
      dsimp only
      by_cases hproc : hasId s.processedTweetIds tid
      · rw [if_pos hproc, if_pos hproc]
        split <;>
          exact ih _ more (fun e he => hsafe e (List.mem_cons_of_mem _ he))
      · rw [if_neg hproc, if_neg hproc]
        have hstop : s.stopAtTweetId ≠ some tid :=
          hsafe el (List.mem_cons_self _ _) tid hid
        rw [if_neg hstop, if_neg hstop]
        cases htd : extractTweetData s.mediaMap el tid with
        | none =>
          exact ih s more (fun e he => hsafe e (List.mem_cons_of_mem _ he))
        | some td =>
          dsimp only
          exact ih _ more (fun e he => hsafe e (List.mem_cons_of_mem _ he))

lemma go_no_stop_frame (seed ok : Bool) (els : List TweetEl) :
    ∀ s : ScraperState,
      (∀ e ∈ els, ∀ t : String,
        extractTweetId e = some t → s.stopAtTweetId ≠ some t) →
      (updateTweetsGo seed ok s els).downloads = s.downloads ∧
      (updateTweetsGo seed ok s els).trace = s.trace := by
  induction els with
  | nil => intro s _; exact ⟨rfl, rfl⟩
  | cons el rest ih =>
    intro s hsafe
    rw [updateTweetsGo_cons]
    cases hid : extractTweetId el with
    | none => exact ih s (fun e he => hsafe e (List.mem_cons_of_mem _ he))
    | some tid =>
      dsimp only
      by_cases hproc : hasId s.processedTweetIds tid
      · rw [if_pos hproc]
        split <;> exact ih _ (fun e he => hsafe e (List.mem_cons_of_mem _ he))
      · rw [if_neg hproc]
        have hstop : s.stopAtTweetId ≠ some tid :=
          hsafe el (List.mem_cons_self _ _) tid hid
        rw [if_neg hstop]
        cases htd : extractTweetData s.mediaMap el tid with
        | none => exact ih s (fun e he => hsafe e (List.mem_cons_of_mem _ he))
        | some td =>
          dsimp only
          exact ih _ (fun e he => hsafe e (List.mem_cons_of_mem _ he))

lemma go_core_extension (seed ok : Bool) (els : List TweetEl) :
    ∀ s : ScraperState, ∃ ext,
      (updateTweetsGo seed ok s els).tweets.map coreOf =
        s.tweets.map coreOf ++ ext := by
  induction els with
  | nil => intro s; exact ⟨[], by simp [updateTweetsGo]⟩
  | cons el rest ih =>
    intro s
    rw [updateTweetsGo_cons]
    cases hid : extractTweetId el with
    | none => exact ih s
    | some tid =>
      dsimp only
      by_cases hproc : hasId s.processedTweetIds tid
      · rw [if_pos hproc]
        split
      -- seed: the in-place media update keeps every record's core fields
        · obtain ⟨ext, hext⟩ := ih
            ({ s with tweets :=
              updateFirst tid (lateMediaUpdate (extractMedia el)) s.tweets })
          refine ⟨ext, ?_⟩
          rw [hext]
          dsimp only
          rw [updateFirst_map_core (lateMediaUpdate_core (extractMedia el))]
        · exact ih s
      · rw [if_neg hproc]
        by_cases hstop : s.stopAtTweetId = some tid
        · rw [if_pos hstop, cleanup_tweets]
          exact ⟨[], by simp⟩
        · rw [if_neg hstop]
          cases htd : extractTweetData s.mediaMap el tid with
          | none => exact ih s
          | some td =>
            dsimp only
            obtain ⟨ext, hext⟩ := ih
              ({ s with processedTweetIds := s.processedTweetIds ++ [tid],
                        tweets := s.tweets ++ [td] })
            refine ⟨coreOf td :: ext, ?_⟩
            rw [hext]
            simp

lemma go_count_processed (seed ok : Bool) (els : List TweetEl) :
    ∀ s : ScraperState, ∀ tid : String,
      hasId s.processedTweetIds tid = true →
      ((updateTweetsGo seed ok s els).tweets.map Tweet.tweetId).count tid =
        (s.tweets.map Tweet.tweetId).count tid := by
  induction els with
  | nil => intro s tid _; rfl
  | cons el rest ih =>
    intro s tid hproc0
    rw [updateTweetsGo_cons]
    cases hid : extractTweetId el with
    | none => exact ih s tid hproc0
    | some tid' =>
      dsimp only
      by_cases hproc : hasId s.processedTweetIds tid'
      · rw [if_pos hproc]
        split
        · have h' := ih
            ({ s with tweets :=
                updateFirst tid' (lateMediaUpdate (extractMedia el)) s.tweets })
            tid hproc0
          rw [h']
          dsimp only
          rw [updateFirst_map_id (lateMediaUpdate_tweetId (extractMedia el))]
        · exact ih s tid hproc0
      · rw [if_neg hproc]
        by_cases hstop : s.stopAtTweetId = some tid'
        · rw [if_pos hstop, cleanup_tweets]
        · rw [if_neg hstop]
          cases htd : extractTweetData s.mediaMap el tid' with
          | none => exact ih s tid hproc0
          | some td =>
            dsimp only
            have hne : tid' ≠ tid := by
              intro h
              subst h
              exact hproc hproc0
            have hproc2 : hasId (s.processedTweetIds ++ [tid']) tid = true := by
              rw [hasId_iff] at hproc0 ⊢
              exact List.mem_append_left _ hproc0
            have h' := ih
              ({ s with processedTweetIds := s.processedTweetIds ++ [tid'],
                        tweets := s.tweets ++ [td] })
              tid hproc2
            rw [h']
            dsimp only
            have htdid : td.tweetId = tid' := by
              unfold extractTweetData at htd
              cases hv : el.timeData with
              | none => rw [hv] at htd; cases htd
              | some t =>
                rw [hv] at htd
                dsimp only at htd
                injection htd with h
                rw [← h]
            simp [htdid, hne, List.count_cons, Ne.symm hne]

lemma go_preserves_inv (seed ok : Bool) (els : List TweetEl) :
    ∀ s : ScraperState,
      (∀ i ∈ s.tweets.map Tweet.tweetId, i ∈ s.processedTweetIds) →
      (s.tweets.map Tweet.tweetId).Nodup →
      ((∀ i ∈ (updateTweetsGo seed ok s els).tweets.map Tweet.tweetId,
          i ∈ (updateTweetsGo seed ok s els).processedTweetIds) ∧
        ((updateTweetsGo seed ok s els).tweets.map Tweet.tweetId).Nodup) := by
  induction els with
  | nil => intro s h1 h2; exact ⟨h1, h2⟩
  | cons el rest ih =>
    intro s h1 h2
    rw [updateTweetsGo_cons]
    cases hid : extractTweetId el with
    | none => exact ih s h1 h2
    | some tid =>
      dsimp only
      by_cases hproc : hasId s.processedTweetIds tid
      · rw [if_pos hproc]
        split
        · refine ih _ ?_ ?_ <;>
            dsimp only <;>
              rw [updateFirst_map_id (lateMediaUpdate_tweetId (extractMedia el))]
          · exact h1
          · exact h2
        · exact ih s h1 h2
      · rw [if_neg hproc]
        by_cases hstop : s.stopAtTweetId = some tid
        · rw [if_pos hstop]
          rw [cleanup_tweets, cleanup_processed]
          exact ⟨h1, h2⟩
        · rw [if_neg hstop]
          cases htd : extractTweetData s.mediaMap el tid with
          | none => exact ih s h1 h2
          | some td =>
            dsimp only
            have htdid : td.tweetId = tid := by
              unfold extractTweetData at htd
              cases hv : el.timeData with
              | none => rw [hv] at htd; cases htd
              | some t =>
                rw [hv] at htd
                dsimp only at htd
                injection htd with h
                rw [← h]
            have hnotin : tid ∉ s.tweets.map Tweet.tweetId := by
              intro hmem
              exact hproc (hasId_iff.mpr (h1 tid hmem))
            refine ih _ ?_ ?_
            · dsimp only
              intro i hi
              rw [List.map_append] at hi
              rcases List.mem_append.mp hi with hi | hi
              · exact List.mem_append_left _ (h1 i hi)
              · have : i = tid := by simpa [htdid] using hi
                subst this
                exact List.mem_append_right _ (by simp)
            · dsimp only
              rw [List.map_append]
              simp only [List.map_cons, List.map_nil, htdid]
              rw [List.nodup_append]
              exact ⟨h2, List.nodup_singleton _,
                by simpa [List.disjoint_right] using hnotin⟩

lemma scrollTick_processed (s : ScraperState) (h : Nat) (ok : Bool) :
    (scrollTick s h ok).processedTweetIds = s.processedTweetIds := by
  unfold scrollTick downloadTweetsAsJson
  dsimp only
  split_ifs <;> rfl

lemma scrollTick_tweets_cases (s : ScraperState) (h : Nat) (ok : Bool) :
    (scrollTick s h ok).tweets = [] ∨ (scrollTick s h ok).tweets = s.tweets := by
  unfold scrollTick downloadTweetsAsJson
  dsimp only
  split_ifs <;> simp

lemma cleanup_effects (s : ScraperState) (h : s.tweets.isEmpty = false) :
    (cleanup true s).downloads = s.downloads ++ [s.tweets] ∧
    (cleanup true s).trace = s.trace ++
      [ScrapeAction.flushBatch s.tweets, ScrapeAction.cancelTimer,
       ScrapeAction.unsubscribe, ScrapeAction.removeHud] := by
  unfold cleanup downloadTweetsAsJson
  dsimp only
  simp [h]

lemma go_avoid (seed ok : Bool) (els : List TweetEl) (s : ScraperState)
    (tid : String) (hproc : hasId s.processedTweetIds tid = true)
    (hav : ∀ t ∈ s.tweets, t.tweetId ≠ tid) :
    ∀ t ∈ (updateTweetsGo seed ok s els).tweets, t.tweetId ≠ tid := by
  have h0 : (s.tweets.map Tweet.tweetId).count tid = 0 :=
    List.count_eq_zero.mpr (by
      intro hmem
      rcases List.mem_map.mp hmem with ⟨t, ht, hte⟩
      exact hav t ht hte)
  have h1 := go_count_processed seed ok els s tid hproc
  rw [h0, List.count_eq_zero] at h1
  intro t ht hte
  exact h1 (List.mem_map.mpr ⟨t, ht, hte⟩)

lemma findRec_decomp {tid : String} {pre post : List Tweet} {a : Tweet}
    (hpre : ∀ t ∈ pre, t.tweetId ≠ tid) (ha : a.tweetId = tid) :
    findRec tid (pre ++ a :: post) = some a := by
  induction pre with
  | nil => simp [findRec, ha]
  | cons p ps ih =>
    have hp : p.tweetId ≠ tid := hpre p (List.mem_cons_self _ _)
    show (if p.tweetId = tid then some p else findRec tid (ps ++ a :: post)) =
      some a
    rw [if_neg hp, ih (fun t ht => hpre t (List.mem_cons_of_mem _ ht))]

lemma step_preserves_inv (e : ScrapeEvent) (s : ScraperState)
    (h1 : ∀ i ∈ s.tweets.map Tweet.tweetId, i ∈ s.processedTweetIds)
    (h2 : (s.tweets.map Tweet.tweetId).Nodup) :
    (∀ i ∈ (scraperStep s e).tweets.map Tweet.tweetId,
        i ∈ (scraperStep s e).processedTweetIds) ∧
      ((scraperStep s e).tweets.map Tweet.tweetId).Nodup := by
  cases e with
  | mutation art ok =>
    dsimp only [scraperStep]
    split
    · exact go_preserves_inv true ok [art] s h1 h2
    · exact ⟨h1, h2⟩
  | tick h ok =>
    dsimp only [scraperStep]
    split
    · refine ?_
      rcases scrollTick_tweets_cases s h ok with hc | hc <;>
        rw [hc, scrollTick_processed]
      · simp
      · exact ⟨h1, h2⟩
    · exact ⟨h1, h2⟩
  | network url =>
    dsimp only [scraperStep]
    split <;> exact ⟨h1, h2⟩
  | stop ok =>
    dsimp only [scraperStep]
    rw [cleanup_tweets, cleanup_processed]
    exact ⟨h1, h2⟩

lemma run_preserves_inv (evs : List ScrapeEvent) :
    ∀ s : ScraperState,
      (∀ i ∈ s.tweets.map Tweet.tweetId, i ∈ s.processedTweetIds) →
      (s.tweets.map Tweet.tweetId).Nodup →
      ((∀ i ∈ (runEvents s evs).tweets.map Tweet.tweetId,
          i ∈ (runEvents s evs).processedTweetIds) ∧
        ((runEvents s evs).tweets.map Tweet.tweetId).Nodup) := by
  induction evs with
  | nil => intro s h1 h2; exact ⟨h1, h2⟩
  | cons e es ih =>
    intro s h1 h2
    have hstep := step_preserves_inv e s h1 h2
    exact ih _ hstep.1 hstep.2

lemma init_inv (opts : ScraperOptions) (docEls : List TweetEl) (ok : Bool) :
    (∀ i ∈ (initScraper opts docEls ok).tweets.map Tweet.tweetId,
        i ∈ (initScraper opts docEls ok).processedTweetIds) ∧
      ((initScraper opts docEls ok).tweets.map Tweet.tweetId).Nodup := by
  unfold initScraper updateTweets
  exact go_preserves_inv false ok docEls _
    (by intro i hi; simp at hi) (by simp)

lemma step_avoid (e : ScrapeEvent) (s : ScraperState) (tid : String)
    (hproc : tid ∈ s.processedTweetIds)
    (hav : ∀ t ∈ s.tweets, t.tweetId ≠ tid) :
    tid ∈ (scraperStep s e).processedTweetIds ∧
      ∀ t ∈ (scraperStep s e).tweets, t.tweetId ≠ tid := by
  cases e with
  | mutation art ok =>
    dsimp only [scraperStep]
    split
    · exact ⟨go_processed_mono true ok [art] s tid hproc,
        go_avoid true ok [art] s tid (hasId_iff.mpr hproc) hav⟩
    · exact ⟨hproc, hav⟩
  | tick h ok =>
    dsimp only [scraperStep]
    split
    · refine ?_
      rcases scrollTick_tweets_cases s h ok with hc | hc <;>
        rw [hc, scrollTick_processed]
      · exact ⟨hproc, by simp⟩
      · exact ⟨hproc, hav⟩
    · exact ⟨hproc, hav⟩
  | network url =>
    dsimp only [scraperStep]
    split <;> exact ⟨hproc, hav⟩
  | stop ok =>
    dsimp only [scraperStep]
    rw [cleanup_tweets, cleanup_processed]
    exact ⟨hproc, hav⟩

lemma run_avoid (evs : List ScrapeEvent) :
    ∀ s : ScraperState, ∀ tid : String, tid ∈ s.processedTweetIds →
      (∀ t ∈ s.tweets, t.tweetId ≠ tid) →
      ∀ t ∈ (runEvents s evs).tweets, t.tweetId ≠ tid := by
  induction evs with
  | nil => intro s tid _ hav; exact hav
  | cons e es ih =>
    intro s tid hproc hav
    have hstep := step_avoid e s tid hproc hav
    exact ih _ tid hstep.1 hstep.2

lemma init_avoid (opts : ScraperOptions) (docEls : List TweetEl) (ok : Bool)
    (sk : List String) (tid : String) (hsk : opts.skipTweetIds = some sk)
    (htid : tid ∈ sk) :
    tid ∈ (initScraper opts docEls ok).processedTweetIds ∧
      ∀ t ∈ (initScraper opts docEls ok).tweets, t.tweetId ≠ tid := by
  have hmem : tid ∈ dedupList (opts.skipTweetIds.getD []) := by
    rw [hsk]
    exact mem_dedupList htid
  unfold initScraper updateTweets
  constructor
  · exact go_processed_mono false ok docEls _ tid hmem
  · exact go_avoid false ok docEls _ tid (hasId_iff.mpr hmem)
      (by intro t ht; cases ht)

lemma go_keeps_nonempty_media (seed ok : Bool) (els : List TweetEl) :
    ∀ s : ScraperState, ∀ pre post : List Tweet, ∀ a : Tweet,
      s.tweets = pre ++ a :: post →
      (∀ t ∈ pre, t.tweetId ≠ a.tweetId) →
      hasId s.processedTweetIds a.tweetId = true →
      ∃ pre2 post2 a2,
        (updateTweetsGo seed ok s els).tweets = pre2 ++ a2 :: post2 ∧
        (∀ t ∈ pre2, t.tweetId ≠ a.tweetId) ∧
        a2.tweetId = a.tweetId ∧
        (a.images ≠ [] → a2.images = a.images) ∧
        (a.videos ≠ [] → a2.videos = a.videos) := by
  induction els with
  | nil =>
    intro s pre post a hdec hpre hproc
    exact ⟨pre, post, a, hdec, hpre, rfl, fun _ => rfl, fun _ => rfl⟩
  | cons el rest ih =>
    intro s pre post a hdec hpre hproc
    rw [updateTweetsGo_cons]
    cases hid : extractTweetId el with
    | none => exact ih s pre post a hdec hpre hproc
    | some tid' =>
      dsimp only
      by_cases hpr : hasId s.processedTweetIds tid'
      · rw [if_pos hpr]
        split
        · by_cases heq : tid' = a.tweetId
          · have ha : a.tweetId = tid' := heq.symm
            have hpre' : ∀ t ∈ pre, t.tweetId ≠ tid' :=
              fun t ht h => hpre t ht (h.trans heq)
            have hupd : updateFirst tid'
                (lateMediaUpdate (extractMedia el)) s.tweets =
                pre ++ lateMediaUpdate (extractMedia el) a :: post := by
              rw [hdec]
              exact updateFirst_first_match hpre' ha
            obtain ⟨pre2, post2, a2, h1, h2, h3, h4, h5⟩ := ih
              ({ s with tweets :=
                  updateFirst tid' (lateMediaUpdate (extractMedia el)) s.tweets })
              pre post (lateMediaUpdate (extractMedia el) a)
              (by dsimp only; rw [hupd])
              (by
                intro t ht
                rw [lateMediaUpdate_tweetId]
                exact hpre t ht)
              (by
                dsimp only
                rw [lateMediaUpdate_tweetId]
                exact hproc)

            refine ⟨pre2, post2, a2, h1, ?_, ?_, ?_, ?_⟩
            · intro t ht
              have := h2 t ht
              rwa [lateMediaUpdate_tweetId] at this
            · rw [h3, lateMediaUpdate_tweetId]
            · intro him
              rw [h4 (by rw [lateMediaUpdate_keeps_images _ _ him]; exact him),
                lateMediaUpdate_keeps_images _ _ him]
            · intro hvd
              rw [h5 (by rw [lateMediaUpdate_keeps_videos _ _ hvd]; exact hvd),
                lateMediaUpdate_keeps_videos _ _ hvd]
          · have hne : a.tweetId ≠ tid' := fun h => heq h.symm
            obtain ⟨pre1, post1, hupd, hmap⟩ :=
              @updateFirst_decomp_ne tid' (lateMediaUpdate (extractMedia el))
                pre post a (lateMediaUpdate_tweetId (extractMedia el)) hne
            obtain ⟨pre2, post2, a2, h1, h2, h3, h4, h5⟩ := ih
              ({ s with tweets :=
                  updateFirst tid' (lateMediaUpdate (extractMedia el)) s.tweets })
              pre1 post1 a
              (by dsimp only; rw [hdec, hupd])
              (by
                intro t ht
                have : t.tweetId ∈ pre1.map Tweet.tweetId :=
                  List.mem_map.mpr ⟨t, ht, rfl⟩
                rw [hmap] at this
                rcases List.mem_map.mp this with ⟨t0, ht0, hte⟩
                rw [← hte]
                exact hpre t0 ht0)
              hproc
            exact ⟨pre2, post2, a2, h1, h2, h3, h4, h5⟩
        · exact ih s pre post a hdec hpre hproc
      · rw [if_neg hpr]
        by_cases hstop : s.stopAtTweetId = some tid'
        · rw [if_pos hstop, cleanup_tweets]
          exact ⟨pre, post, a, hdec, hpre, rfl, fun _ => rfl, fun _ => rfl⟩
        · rw [if_neg hstop]
          cases htd : extractTweetData s.mediaMap el tid' with
          | none => exact ih s pre post a hdec hpre hproc
          | some td =>
            dsimp only
            refine ih
              ({ s with processedTweetIds := s.processedTweetIds ++ [tid'],
                        tweets := s.tweets ++ [td] })
              pre (post ++ [td]) a ?_ hpre ?_
            · dsimp only
              rw [hdec]
              simp
            · dsimp only
              rw [hasId_iff] at hproc ⊢
              exact List.mem_append_left _ hproc

/-- C4: identifiers are unique. Once an identifier is in the processed set, no
invocation of the reconciliation loop — whatever its trigger and whatever
elements it enumerates — changes the number of pending records bearing that
identifier (no new record is ever appended for it); the pending batch's
identifier list stays duplicate-free across a whole session; and every record
present before an invocation keeps its non-media fields unchanged and in
place (only `images`/`videos` may be mutated). -/
theorem claim_C4_unique_record (seed ok : Bool) (els : List TweetEl)
    (s : ScraperState) (tid : String)
    (hproc : hasId s.processedTweetIds tid = true)
    (hsub : ∀ i ∈ s.tweets.map Tweet.tweetId, i ∈ s.processedTweetIds)
    (hnd : (s.tweets.map Tweet.tweetId).Nodup) :
    ((updateTweetsGo seed ok s els).tweets.map Tweet.tweetId).count tid =
      (s.tweets.map Tweet.tweetId).count tid ∧
    ((updateTweetsGo seed ok s els).tweets.map Tweet.tweetId).Nodup ∧
    ((updateTweetsGo seed ok s els).tweets.map coreOf).take
      (s.tweets.map coreOf).length = s.tweets.map coreOf ∧
    (∀ opts : ScraperOptions, ∀ docEls : List TweetEl, ∀ ok2 : Bool,
      ∀ evs : List ScrapeEvent,
      ((runEvents (initScraper opts docEls ok2) evs).tweets.map
        Tweet.tweetId).Nodup) := by
  refine ⟨go_count_processed seed ok els s tid hproc,
    (go_preserves_inv seed ok els s hsub hnd).2, ?_, ?_⟩
  · obtain ⟨ext, hext⟩ := go_core_extension seed ok els s
    rw [hext, List.take_left]
  · intro opts docEls ok2 evs
    have hinit := init_inv opts docEls ok2
    exact (run_preserves_inv evs _ hinit.1 hinit.2).2

/-- C4 witness at a concrete one-record state. -/
theorem claim_C4_unique_record_witness :
    hasId (initScraper { } [exElThumb] true).processedTweetIds "222" = true ∧
    ((updateTweetsGo true true (initScraper { } [exElThumb] true)
        [exElThumb]).tweets.map Tweet.tweetId).count "222" =
      (((initScraper { } [exElThumb] true).tweets.map
        Tweet.tweetId)).count "222" :=
  ⟨by decide,
    (claim_C4_unique_record true true [exElThumb]
      (initScraper { } [exElThumb] true) "222" (by decide) (by decide)
      (by decide)).1⟩

/-- C9: an identifier supplied in the `skipTweetIds` option at session start
is pre-seeded into the processed set, and no record bearing it is ever in the
pending batch at any point of any session, whatever elements are rendered and
whatever triggers fire. -/
theorem claim_C9_skip_ids (opts : ScraperOptions) (sk : List String)
    (tid : String) (docEls : List TweetEl) (ok : Bool)
    (evs : List ScrapeEvent) (hsk : opts.skipTweetIds = some sk)
    (htid : tid ∈ sk) :
    (runEvents (initScraper opts docEls ok) evs).tweets.all
      (fun t => !(t.tweetId == tid)) = true := by
  have hinit := init_avoid opts docEls ok sk tid hsk htid
  have hrun := run_avoid evs _ tid hinit.1 hinit.2
  rw [List.all_eq_true]
  intro t ht
  simpa using hrun t ht

/-- C9 witness: `skipTweetIds = ["5", "9"]`, a fully extractable item with
identifier `5` seen both at startup and through a mutation. -/
theorem claim_C9_skip_ids_witness :
    ({ skipTweetIds := some ["5", "9"] } : ScraperOptions).skipTweetIds =
      some ["5", "9"] ∧
    "5" ∈ ["5", "9"] ∧
    (runEvents (initScraper { skipTweetIds := some ["5", "9"] } [exElSkip5]
        true) [ScrapeEvent.mutation exElSkip5 true]).tweets.all
      (fun t => !(t.tweetId == "5")) = true :=
  ⟨rfl, by decide,
    claim_C9_skip_ids { skipTweetIds := some ["5", "9"] } ["5", "9"] "5"
      [exElSkip5] true [ScrapeEvent.mutation exElSkip5 true] rfl (by decide)⟩

/-- C5: when the loop reaches an element whose identifier equals the
configured stop identifier (not already processed), all remaining elements of
the same invocation are dropped, and exactly one final flush is handed to the
sink containing every previously accumulated, not-yet-flushed record (each
old record present with its non-media fields intact). -/
theorem claim_C5_stop_id (seed : Bool) (s : ScraperState)
    (els1 els2 : List TweetEl) (stopEl : TweetEl) (stopId : String)
    (h1 : s.stopAtTweetId = some stopId)
    (h2 : hasId s.processedTweetIds stopId = false)
    (h3 : ∀ e ∈ els1, extractTweetId e ≠ some stopId)
    (h4 : extractTweetId stopEl = some stopId)
    (h5 : s.tweets ≠ []) :
    updateTweetsGo seed true s (els1 ++ stopEl :: els2) =
      cleanup true (updateTweetsGo seed true s els1) ∧
    (updateTweetsGo seed true s (els1 ++ stopEl :: els2)).downloads =
      s.downloads ++ [(updateTweetsGo seed true s els1).tweets] ∧
    (updateTweetsGo seed true s (els1 ++ stopEl :: els2)).trace =
      s.trace ++
        [ScrapeAction.flushBatch (updateTweetsGo seed true s els1).tweets,
         ScrapeAction.cancelTimer, ScrapeAction.unsubscribe,
         ScrapeAction.removeHud] ∧
    (∀ t ∈ s.tweets, ∃ t2 ∈ (updateTweetsGo seed true s els1).tweets,
      coreOf t2 = coreOf t) := by
  have hsafe : ∀ e ∈ els1, ∀ t : String,
      extractTweetId e = some t → s.stopAtTweetId ≠ some t := by
    intro e he t het hst
    rw [h1] at hst
    have : stopId = t := by injection hst
    subst this
    exact h3 e he het
  have happ := go_append seed true els1 s (stopEl :: els2) hsafe
  have hstop2 : (updateTweetsGo seed true s els1).stopAtTweetId =
      some stopId := by rw [go_stopAtTweetId, h1]
  have hproc2 : hasId (updateTweetsGo seed true s els1).processedTweetIds
      stopId = false := by
    by_contra hcon
    rw [Bool.not_eq_false, hasId_iff] at hcon
    rcases go_processed_from seed true els1 s stopId hcon with hin | ⟨e, he, hee⟩
    · rw [← hasId_iff] at hin
      rw [hin] at h2
      cases h2
    · exact h3 e he hee
  have hone : updateTweetsGo seed true
      (updateTweetsGo seed true s els1) (stopEl :: els2) =
      cleanup true (updateTweetsGo seed true s els1) := by
    rw [updateTweetsGo_cons, h4]
    try dsimp only
    rw [hproc2]
    simp only [Bool.false_eq_true, if_false]
    rw [if_pos hstop2]
  have hmain : updateTweetsGo seed true s (els1 ++ stopEl :: els2) =
      cleanup true (updateTweetsGo seed true s els1) := by
    rw [happ, hone]
  obtain ⟨ext, hext⟩ := go_core_extension seed true els1 s
  have hne : (updateTweetsGo seed true s els1).tweets.isEmpty = false := by
    cases hv : (updateTweetsGo seed true s els1).tweets with
    | nil =>
      rw [hv] at hext
      cases hw : s.tweets with
      | nil => exact absurd hw h5
      | cons b bs =>
        rw [hw] at hext
        simp at hext
    | cons b bs => rfl
  have hframe := go_no_stop_frame seed true els1 s hsafe
  have heff := cleanup_effects (updateTweetsGo seed true s els1) hne
  refine ⟨hmain, ?_, ?_, ?_⟩
  · rw [hmain, heff.1, hframe.1]
  · rw [hmain, heff.2, hframe.2]
  · intro t ht
    have hmem : coreOf t ∈
        (updateTweetsGo seed true s els1).tweets.map coreOf := by
      rw [hext]
      exact List.mem_append_left _ (List.mem_map.mpr ⟨t, ht, rfl⟩)
    rcases List.mem_map.mp hmem with ⟨t2, ht2, hte⟩
    exact ⟨t2, ht2, hte⟩

/-- C5 witness: one accumulated record, one new record captured in the same
invocation, then the stop element; the element after the stop element is
dropped and the single flush holds both records. -/
theorem claim_C5_stop_id_witness :
    ((initScraper { stopAtTweetId := some "999" } [exEl1] true).stopAtTweetId =
        some "999" ∧
      hasId (initScraper { stopAtTweetId := some "999" } [exEl1]
        true).processedTweetIds "999" = false ∧
      extractTweetId exElStop = some "999" ∧
      (initScraper { stopAtTweetId := some "999" } [exEl1] true).tweets ≠ []) ∧
    (updateTweetsGo false true
        (initScraper { stopAtTweetId := some "999" } [exEl1] true)
        ([exElThumb] ++ exElStop :: [exEl1])).downloads =
      (initScraper { stopAtTweetId := some "999" } [exEl1] true).downloads ++
        [(updateTweetsGo false true
            (initScraper { stopAtTweetId := some "999" } [exEl1] true)
            [exElThumb]).tweets] :=
  ⟨⟨by decide, by decide, by decide, by decide⟩,
    (claim_C5_stop_id false
      (initScraper { stopAtTweetId := some "999" } [exEl1] true)
      [exElThumb] [exEl1] exElStop "999" (by decide) (by decide) (by decide)
      (by decide) (by decide)).2.1⟩

/-- C2 counterexample: item `222` is captured with a video thumbnail but no
network capture, so its record's videos set is empty; the matching network
URL is then observed (the correlation table holds it), and a mutation-
triggered re-processing of the same item runs. The claim says the record's
videos set is now the captured URL; in fact the late-media path never
consults the correlation table, and the record's videos set is still empty
(`exTweetThumb.videos = []`). -/
theorem claim_C2_counterexample :
    (runEvents (initScraper { } [exElThumb] true)
        [ScrapeEvent.network exVidUrl,
         ScrapeEvent.mutation exElThumb true]).mediaMap =
      [("123456", [exVidUrl])] ∧
    (runEvents (initScraper { } [exElThumb] true)
        [ScrapeEvent.network exVidUrl,
         ScrapeEvent.mutation exElThumb true]).tweets = [exTweetThumb] ∧
    exTweetThumb.videos = [] := by
  refine ⟨by decide, by decide, by decide⟩

/-- C2 amended: a mutation-triggered re-processing of an already-captured
item never consults the network correlation table (its result is the same
under any table contents); it rewrites the record in place with
`lateMediaUpdate`, which, when the record's videos set is empty, installs
exactly the element's directly embedded video-source URLs (`extractMedia`'s
videos) — not the table's captured URLs; and once a record's videos or
images set is non-empty, no later re-processing (over any element sequence)
and no network capture ever changes that set. -/
theorem claim_C2_late_media (s : ScraperState) (el : TweetEl) (tid : String)
    (pre post : List Tweet) (already : Tweet) (ok : Bool)
    (hdec : s.tweets = pre ++ already :: post)
    (hpre : ∀ t ∈ pre, t.tweetId ≠ tid)
    (hid : already.tweetId = tid)
    (hproc : hasId s.processedTweetIds tid = true)
    (hel : extractTweetId el = some tid) :
    (∀ M : List (String × List String),
      (updateTweetsGo true ok { s with mediaMap := M } [el]).tweets =
        (updateTweetsGo true ok s [el]).tweets) ∧
    (updateTweetsGo true ok s [el]).tweets =
      pre ++ lateMediaUpdate (extractMedia el) already :: post ∧
    (already.videos = [] →
      (lateMediaUpdate (extractMedia el) already).videos =
        (extractMedia el).videos) ∧
    (already.videos ≠ [] → ∀ els : List TweetEl,
      ∃ a2, findRec tid (updateTweetsGo true ok s els).tweets = some a2 ∧
        a2.videos = already.videos) ∧
    (already.images ≠ [] → ∀ els : List TweetEl,
      ∃ a2, findRec tid (updateTweetsGo true ok s els).tweets = some a2 ∧
        a2.images = already.images) ∧
    (∀ url : String,
      (scraperStep s (ScrapeEvent.network url)).tweets = s.tweets) := by
  have hpre2 : ∀ t ∈ pre, t.tweetId ≠ already.tweetId := by
    rw [hid]
    exact hpre
  have hproc2 : hasId s.processedTweetIds already.tweetId = true := by
    rw [hid]
    exact hproc
  have hstep : ∀ s2 : ScraperState,
      hasId s2.processedTweetIds tid = true →
      (updateTweetsGo true ok s2 [el]).tweets =
        updateFirst tid (lateMediaUpdate (extractMedia el)) s2.tweets := by
    intro s2 hp2
    rw [updateTweetsGo_cons, hel]
    try dsimp only
    rw [if_pos hp2]
    try dsimp only
    rfl
  refine ⟨?_, ?_, ?_, ?_, ?_, ?_⟩
  · intro M
    rw [hstep ({ s with mediaMap := M }) hproc, hstep s hproc]
  · rw [hstep s hproc, hdec, updateFirst_first_match hpre hid]
  · exact lateMediaUpdate_videos_of_empty (extractMedia el) already
  · intro hvd els
    obtain ⟨pre2, post2, a2, h1, h2, h3, _, h5⟩ :=
      go_keeps_nonempty_media true ok els s pre post already hdec hpre2 hproc2
    refine ⟨a2, ?_, h5 hvd⟩
    rw [h1]
    refine findRec_decomp ?_ ?_
    · intro t ht
      rw [← hid]
      exact h2 t ht
    · rw [h3, hid]
  · intro him els
    obtain ⟨pre2, post2, a2, h1, h2, h3, h4, _⟩ :=
      go_keeps_nonempty_media true ok els s pre post already hdec hpre2 hproc2
    refine ⟨a2, ?_, h4 him⟩
    rw [h1]
    refine findRec_decomp ?_ ?_
    · intro t ht
      rw [← hid]
      exact h2 t ht
    · rw [h3, hid]
  · intro url
    dsimp only [scraperStep]
    split <;> rfl

/-- C2 amended witness: the record captured for item `222` after the network
URL was stashed has a nonempty videos set; a mutation re-processing rewrites
it in place with `lateMediaUpdate` (which leaves the nonempty set intact). -/
theorem claim_C2_late_media_witness :
    ((updateTweetsGo false true (scraperStep (initScraper { } [] true)
        (ScrapeEvent.network exVidUrl)) [exElThumb]).tweets =
        [] ++ exTweetVid :: [] ∧
      exTweetVid.tweetId = "222" ∧
      hasId (updateTweetsGo false true (scraperStep (initScraper { } [] true)
        (ScrapeEvent.network exVidUrl)) [exElThumb]).processedTweetIds "222" =
        true ∧
      extractTweetId exElThumb = some "222" ∧
      exTweetVid.videos ≠ []) ∧
    (updateTweetsGo true true (updateTweetsGo false true
        (scraperStep (initScraper { } [] true) (ScrapeEvent.network exVidUrl))
        [exElThumb]) [exElThumb]).tweets =
      [] ++ lateMediaUpdate (extractMedia exElThumb) exTweetVid :: [] :=
  ⟨⟨by decide, by decide, by decide, by decide, by decide⟩,
    (claim_C2_late_media _ exElThumb "222" [] [] exTweetVid true (by decide)
      (by decide) (by decide) (by decide) (by decide)).2.1⟩
